import Mathlib

/-!
Shallow embedding of the verified circular buffer in
`src/core/circular_buffer_verified.c` (functions `VerifiedCircBufInitialize`,
`VerifiedCircBufUninitialize`, `VerifiedCircBufWriteByte`,
`VerifiedCircBufReadByte`, `VerifiedCircBufDrain`, `VerifiedCircBufResize`,
`VerifiedCircBufWriteBuffer`, `VerifiedCircBufReadBuffer`).

Modelling conventions:
* Machine bytes (`uint8_t`) are carried opaquely, so they are modelled as
  `Nat`; no arithmetic is ever performed on byte values by the C code.
* `uint32_t` size arithmetic is modelled on `Nat`.  Every theorem carries the
  documented preconditions (powers of two, `AllocLength ≤ VirtualLength`,
  `PrefixLength + WriteLength ≤ VirtualLength`, `DrainLength ≤ PrefixLength`,
  indices in bounds), under which all the `uint32_t` additions, subtractions
  and the doubling loop stay strictly below `2^32`, so `Nat` arithmetic and
  `uint32_t` arithmetic coincide on every reachable value.
* The platform allocator is modelled by a boolean oracle `allocOk`: `true`
  means the `VERIFIED_CB_ALLOC` call returns a fresh zeroed region (the C
  code `memset`s it), `false` means it returns `NULL`.
* `memcpy(Dst + i, Src, n)` is modelled as the byte-by-byte overwrite
  `memcpy Dst i Src` below, where `Src` is the list of the `n` source bytes.
* A buffer pointer is modelled by the list of bytes it points to; the
  separate handle structure used for `VerifiedCircBufUninitialize` keeps the
  pointer as an `Option` so that the `NULL` check of the C code is visible.
-/

/-- The `VERIFIED_CIRC_BUFFER` struct of `circular_buffer_verified.h`, with
the backing allocation `Buffer` represented by its byte contents. -/
structure VERIFIED_CIRC_BUFFER where
  Buffer : List Nat
  ReadStart : Nat
  AllocLength : Nat
  PrefixLength : Nat
  VirtualLength : Nat
deriving DecidableEq

/-- `CircularIndex`: `(ReadStart + Offset) % AllocLength`. -/
def CircularIndex (ReadStart Offset AllocLength : Nat) : Nat :=
  (ReadStart + Offset) % AllocLength

/-- `memcpy(Dst + i, Src, Src.length)`, byte by byte, as the C `memcpy`
behaves on the in-bounds calls the code makes. -/
def memcpy : List Nat → Nat → List Nat → List Nat
  | Dst, _, [] => Dst
  | Dst, i, b :: rest => memcpy (Dst.set i b) (i + 1) rest

/-- The state `VerifiedCircBufInitialize` establishes on allocator success:
zeroed buffer of `AllocLength` bytes, `ReadStart = 0`, `PrefixLength = 0`. -/
def VerifiedCircBufInitState (AllocLength VirtualLength : Nat) : VERIFIED_CIRC_BUFFER :=
  { Buffer := List.replicate AllocLength 0
    ReadStart := 0
    AllocLength := AllocLength
    PrefixLength := 0
    VirtualLength := VirtualLength }

/-- `VerifiedCircBufInitialize` (allocation success passed as the oracle
`allocOk`): returns the fresh state, or `none` when the allocator fails. -/
def VerifiedCircBufInit (allocOk : Bool) (AllocLength VirtualLength : Nat) :
    Option VERIFIED_CIRC_BUFFER :=
  if allocOk then some (VerifiedCircBufInitState AllocLength VirtualLength) else none

/-- `VerifiedCircBufWriteByte`. -/
def VerifiedCircBufWriteByte (Cb : VERIFIED_CIRC_BUFFER)
    (Offset Byte NewPrefixLength : Nat) : VERIFIED_CIRC_BUFFER :=
  let PhysIdx := CircularIndex Cb.ReadStart Offset Cb.AllocLength
  { Cb with Buffer := Cb.Buffer.set PhysIdx Byte, PrefixLength := NewPrefixLength }

/-- `VerifiedCircBufReadByte`. -/
def VerifiedCircBufReadByte (Cb : VERIFIED_CIRC_BUFFER) (Offset : Nat) : Nat :=
  Cb.Buffer.getD (CircularIndex Cb.ReadStart Offset Cb.AllocLength) 0

/-- `VerifiedCircBufDrain`.  (`PrefixLength -= DrainLength` is `uint32_t`
subtraction; under the documented precondition `DrainLength ≤ PrefixLength`
it agrees with truncated `Nat` subtraction.) -/
def VerifiedCircBufDrain (Cb : VERIFIED_CIRC_BUFFER) (DrainLength : Nat) :
    VERIFIED_CIRC_BUFFER :=
  { Cb with
    ReadStart := CircularIndex Cb.ReadStart DrainLength Cb.AllocLength
    PrefixLength := Cb.PrefixLength - DrainLength }

/-- `VerifiedCircBufResize`: allocate `NewAllocLength` zeroed bytes, copy the
head segment `Buffer[Rs..AllocLength)` to offset `0`, then (only when
`Rs > 0`) the tail segment `Buffer[0..Rs)` to offset `AllocLength - Rs`;
free the old buffer, set `ReadStart := 0`, `AllocLength := NewAllocLength`.
On allocator failure return `false` with the state untouched. -/
def VerifiedCircBufResize (allocOk : Bool) (Cb : VERIFIED_CIRC_BUFFER)
    (NewAllocLength : Nat) : Bool × VERIFIED_CIRC_BUFFER :=
  if allocOk then
    let OldAllocLength := Cb.AllocLength
    let Rs := Cb.ReadStart
    let HeadLen := OldAllocLength - Rs
    let NewBuffer1 := memcpy (List.replicate NewAllocLength 0) 0
      ((Cb.Buffer.drop Rs).take HeadLen)
    let NewBuffer2 :=
      if 0 < Rs then memcpy NewBuffer1 HeadLen (Cb.Buffer.take Rs) else NewBuffer1
    (true, { Cb with Buffer := NewBuffer2, ReadStart := 0, AllocLength := NewAllocLength })
  else (false, Cb)

/-- The doubling loop of `VerifiedCircBufWriteBuffer`:
`while (NewAl < Needed) NewAl = NewAl + NewAl`.  The C loop does not
terminate when `NewAl = 0`; the extra guard `0 < NewAl` (which is implied by
the power-of-two invariant on every actual call) makes the recursion
well-founded and agrees with the C guard whenever `0 < NewAl`. -/
def growLoop (NewAl Needed : Nat) : Nat :=
  if _h : 0 < NewAl ∧ NewAl < Needed then growLoop (NewAl + NewAl) Needed else NewAl
termination_by Needed - NewAl
decreasing_by omega

/-- The copy step of `VerifiedCircBufWriteBuffer` after any resize:
`WriteStart = (ReadStart + PrefixLength) % AllocLength`, then one `memcpy`
when the region fits before the end of the buffer, two otherwise; finally
`PrefixLength := PrefixLength + WriteLength`.  `PrefixLength` is the value
the caller captured before the resize branch (the resize leaves it
unchanged). -/
def VerifiedCircBufWritePlace (Cb : VERIFIED_CIRC_BUFFER) (Source : List Nat)
    (PrefixLength : Nat) : VERIFIED_CIRC_BUFFER :=
  let WriteStart := CircularIndex Cb.ReadStart PrefixLength Cb.AllocLength
  let SpaceToEnd := Cb.AllocLength - WriteStart
  let NewBuf :=
    if Source.length ≤ SpaceToEnd then
      memcpy Cb.Buffer WriteStart Source
    else
      memcpy (memcpy Cb.Buffer WriteStart (Source.take SpaceToEnd)) 0
        (Source.drop SpaceToEnd)
  { Cb with Buffer := NewBuf, PrefixLength := PrefixLength + Source.length }

/-- `VerifiedCircBufWriteBuffer`.  Result `(Accepted, AllocationFailed, Cb')`:
`Accepted` is the C return value `WriteLength > 0` (or `false` on allocation
failure), `AllocationFailed` mirrors `*AllocationFailed`, `Cb'` the state. -/
def VerifiedCircBufWriteBuffer (allocOk : Bool) (Cb : VERIFIED_CIRC_BUFFER)
    (Source : List Nat) : Bool × Bool × VERIFIED_CIRC_BUFFER :=
  let Needed := Cb.PrefixLength + Source.length
  if Cb.AllocLength < Needed then
    match VerifiedCircBufResize allocOk Cb (growLoop Cb.AllocLength Needed) with
    | (false, _) => (false, true, Cb)
    | (true, Cb2) =>
      (decide (0 < Source.length), false, VerifiedCircBufWritePlace Cb2 Source Cb.PrefixLength)
  else
    (decide (0 < Source.length), false, VerifiedCircBufWritePlace Cb Source Cb.PrefixLength)

/-- `VerifiedCircBufReadBuffer`, returning the list of bytes copied to
`Destination`: one segment when `ReadLength` fits before the end of the
buffer, two otherwise. -/
def VerifiedCircBufReadBuffer (Cb : VERIFIED_CIRC_BUFFER) (ReadLength : Nat) :
    List Nat :=
  let Rs := Cb.ReadStart
  let SpaceToEnd := Cb.AllocLength - Rs
  if ReadLength ≤ SpaceToEnd then
    (Cb.Buffer.drop Rs).take ReadLength
  else
    (Cb.Buffer.drop Rs).take SpaceToEnd ++ Cb.Buffer.take (ReadLength - SpaceToEnd)

/-- The `VERIFIED_CIRC_BUFFER` struct viewed through its `Buffer` *pointer*:
`none` models a `NULL` pointer, `some bytes` a live allocation.  Used for
`VerifiedCircBufUninitialize`, whose behaviour depends on pointer nullness. -/
structure VERIFIED_CIRC_BUFFER_HANDLE where
  Buffer : Option (List Nat)
  ReadStart : Nat
  AllocLength : Nat
  PrefixLength : Nat
  VirtualLength : Nat
deriving DecidableEq

/-- `VerifiedCircBufUninitialize`: if the buffer pointer is non-`NULL`, free
it and set it to `NULL`; otherwise do nothing. -/
def VerifiedCircBufUninit (Cb : VERIFIED_CIRC_BUFFER_HANDLE) :
    VERIFIED_CIRC_BUFFER_HANDLE :=
  match Cb.Buffer with
  | some _ => { Cb with Buffer := none }
  | none => Cb

/-- `n` is a power of two (the header requires `AllocLength` and
`VirtualLength` to be positive powers of two). -/
def IsPow2 (n : Nat) : Prop := ∃ k, n = 2 ^ k

-- ---------------------------------------------------------------------------
-- Helper lemmas about `List.getD`, `List.set`, `memcpy`
-- ---------------------------------------------------------------------------

theorem getD_set_self (l : List Nat) (i a : Nat) (h : i < l.length) :
    (l.set i a).getD i 0 = a := by
  rw [List.getD_eq_getElem?_getD, List.getElem?_set_self h]
  rfl

theorem getD_set_ne (l : List Nat) {i j : Nat} (a : Nat) (h : i ≠ j) :
    (l.set i a).getD j 0 = l.getD j 0 := by
  rw [List.getD_eq_getElem?_getD, List.getElem?_set_ne h, ← List.getD_eq_getElem?_getD]

theorem getD_take (l : List Nat) {n j : Nat} (h : j < n) :
    (l.take n).getD j 0 = l.getD j 0 := by
  rw [List.getD_eq_getElem?_getD, List.getD_eq_getElem?_getD, List.getElem?_take,
    if_pos h]

theorem getD_drop (l : List Nat) (n j : Nat) :
    (l.drop n).getD j 0 = l.getD (n + j) 0 := by
  rw [List.getD_eq_getElem?_getD, List.getD_eq_getElem?_getD, List.getElem?_drop]

theorem getD_replicate (n j : Nat) : (List.replicate n 0).getD j 0 = 0 := by
  rw [List.getD_eq_getElem?_getD, List.getElem?_replicate]
  split <;> rfl

theorem getD_of_length_le (l : List Nat) {j : Nat} (h : l.length ≤ j) :
    l.getD j 0 = 0 := by
  rw [List.getD_eq_getElem?_getD, List.getElem?_eq_none h]
  rfl

theorem memcpy_length (Src : List Nat) : ∀ (Dst : List Nat) (i : Nat),
    (memcpy Dst i Src).length = Dst.length := by
  induction Src with
  | nil => intro Dst i; rfl
  | cons b rest ih => intro Dst i; rw [memcpy, ih, List.length_set]

theorem memcpy_getD_lt (Src : List Nat) : ∀ (Dst : List Nat) (i j : Nat), j < i →
    (memcpy Dst i Src).getD j 0 = Dst.getD j 0 := by
  induction Src with
  | nil => intro Dst i j _; rfl
  | cons b rest ih =>
    intro Dst i j hj
    rw [memcpy, ih (Dst.set i b) (i + 1) j (by omega), getD_set_ne Dst b (by omega)]

theorem memcpy_getD_ge (Src : List Nat) : ∀ (Dst : List Nat) (i j : Nat),
    i + Src.length ≤ j →
    (memcpy Dst i Src).getD j 0 = Dst.getD j 0 := by
  induction Src with
  | nil => intro Dst i j _; rfl
  | cons b rest ih =>
    intro Dst i j hj
    simp only [List.length_cons] at hj
    rw [memcpy, ih (Dst.set i b) (i + 1) j (by omega), getD_set_ne Dst b (by omega)]

theorem memcpy_getD_in (Src : List Nat) : ∀ (Dst : List Nat) (i j : Nat),
    i ≤ j → j < i + Src.length → j < Dst.length →
    (memcpy Dst i Src).getD j 0 = Src.getD (j - i) 0 := by
  induction Src with
  | nil => intro Dst i j h1 h2 _; simp only [List.length_nil] at h2; omega
  | cons b rest ih =>
    intro Dst i j h1 h2 h3
    simp only [List.length_cons] at h2
    rw [memcpy]
    rcases Nat.eq_or_lt_of_le h1 with heq | hlt
    · subst heq
      rw [memcpy_getD_lt rest (Dst.set i b) (i + 1) i (by omega),
        getD_set_self Dst i b h3, Nat.sub_self, List.getD_cons_zero]
    · have hj1 : j - i = (j - (i + 1)) + 1 := by omega
      rw [ih (Dst.set i b) (i + 1) j (by omega) (by omega) (by rwa [List.length_set]),
        hj1, List.getD_cons_succ]

-- ---------------------------------------------------------------------------
-- Modular arithmetic helpers
-- ---------------------------------------------------------------------------

theorem mod_eq_sub_of_lt_two_mul {x al : Nat} (h1 : al ≤ x) (h2 : x < al + al) :
    x % al = x - al := by
  rw [Nat.mod_eq_sub_mod h1, Nat.mod_eq_of_lt (by omega)]

theorem mod_add_cancel_right (rs i al : Nat) :
    (rs + i + al) % al = (rs + i) % al := by
  rw [Nat.add_mod_right]

-- ---------------------------------------------------------------------------
-- Power-of-two and doubling-loop lemmas
-- ---------------------------------------------------------------------------

theorem IsPow2.pos {n : Nat} (h : IsPow2 n) : 0 < n := by
  obtain ⟨k, rfl⟩ := h
  exact pow_pos (by norm_num) k

theorem IsPow2.double {n : Nat} (h : IsPow2 n) : IsPow2 (n + n) := by
  obtain ⟨k, rfl⟩ := h
  refine ⟨k + 1, ?_⟩
  rw [pow_succ]
  omega

theorem IsPow2.two_mul_le {a m : Nat} (ha : IsPow2 a) (hm : IsPow2 m) (h : a < m) :
    a + a ≤ m := by
  obtain ⟨i, rfl⟩ := ha
  obtain ⟨j, rfl⟩ := hm
  have hij : i < j := by
    by_contra hc
    push_neg at hc
    exact absurd (@Nat.pow_le_pow_right 2 (by norm_num) j i hc) (by omega)
  have h2 : (2 : Nat) ^ (i + 1) ≤ 2 ^ j :=
    @Nat.pow_le_pow_right 2 (by norm_num) (i + 1) j (by omega)
  rw [pow_succ] at h2
  omega

theorem growLoop_of_le {NewAl Needed : Nat} (h : Needed ≤ NewAl) :
    growLoop NewAl Needed = NewAl := by
  rw [growLoop, dif_neg (by omega)]

theorem growLoop_spec : ∀ (k NewAl Needed : Nat), Needed - NewAl ≤ k →
    (NewAl ≤ growLoop NewAl Needed) ∧
    (0 < NewAl → Needed ≤ growLoop NewAl Needed) ∧
    (IsPow2 NewAl → IsPow2 (growLoop NewAl Needed)) ∧
    (∀ m, IsPow2 NewAl → IsPow2 m → NewAl ≤ m → Needed ≤ m →
      growLoop NewAl Needed ≤ m) := by
  intro k
  induction k with
  | zero =>
    intro NewAl Needed h
    rw [growLoop, dif_neg (by omega)]
    exact ⟨Nat.le_refl _, fun _ => by omega, fun hp => hp, fun m _ _ hm _ => hm⟩
  | succ k ih =>
    intro NewAl Needed h
    rw [growLoop]
    by_cases hg : 0 < NewAl ∧ NewAl < Needed
    · rw [dif_pos hg]
      obtain ⟨ihle, ihge, ihp, ihb⟩ := ih (NewAl + NewAl) Needed (by omega)
      refine ⟨by omega, fun _ => ihge (by omega), fun hp => ihp hp.double, ?_⟩
      intro m hp hm hlem hneed
      exact ihb m hp.double hm (hp.two_mul_le hm (by omega)) hneed
    · rw [dif_neg hg]
      exact ⟨Nat.le_refl _, fun h0 => by omega, fun hp => hp, fun m _ _ hm _ => hm⟩

theorem growLoop_le_self (NewAl Needed : Nat) : NewAl ≤ growLoop NewAl Needed :=
  (growLoop_spec (Needed - NewAl) NewAl Needed (Nat.le_refl _)).1

theorem growLoop_ge {NewAl : Nat} (Needed : Nat) (h : 0 < NewAl) :
    Needed ≤ growLoop NewAl Needed :=
  (growLoop_spec (Needed - NewAl) NewAl Needed (Nat.le_refl _)).2.1 h

theorem growLoop_pow2 {NewAl : Nat} (Needed : Nat) (h : IsPow2 NewAl) :
    IsPow2 (growLoop NewAl Needed) :=
  (growLoop_spec (Needed - NewAl) NewAl Needed (Nat.le_refl _)).2.2.1 h

theorem growLoop_le_bound {NewAl Needed m : Nat} (hp : IsPow2 NewAl) (hm : IsPow2 m)
    (hlem : NewAl ≤ m) (hneed : Needed ≤ m) : growLoop NewAl Needed ≤ m :=
  (growLoop_spec (Needed - NewAl) NewAl Needed (Nat.le_refl _)).2.2.2 m hp hm hlem hneed

-- ---------------------------------------------------------------------------
-- Characterization of the resize linearization copy
-- ---------------------------------------------------------------------------

/-- On allocator success, `VerifiedCircBufResize` produces exactly the
linearized buffer: head segment first, then the tail segment, zeros above
the old allocation length; `ReadStart` becomes `0`, `AllocLength` the new
size, `PrefixLength` and `VirtualLength` are unchanged. -/
theorem resize_success (Cb : VERIFIED_CIRC_BUFFER) (NewAl : Nat)
    (hbl : Cb.Buffer.length = Cb.AllocLength)
    (hrs : Cb.ReadStart ≤ Cb.AllocLength)
    (hle : Cb.AllocLength ≤ NewAl) :
    ∃ Cb', VerifiedCircBufResize true Cb NewAl = (true, Cb') ∧
      Cb'.ReadStart = 0 ∧ Cb'.AllocLength = NewAl ∧
      Cb'.PrefixLength = Cb.PrefixLength ∧ Cb'.VirtualLength = Cb.VirtualLength ∧
      Cb'.Buffer.length = NewAl ∧
      (∀ j, j < Cb.AllocLength - Cb.ReadStart →
        Cb'.Buffer.getD j 0 = Cb.Buffer.getD (Cb.ReadStart + j) 0) ∧
      (∀ j, j < Cb.ReadStart →
        Cb'.Buffer.getD (Cb.AllocLength - Cb.ReadStart + j) 0 = Cb.Buffer.getD j 0) ∧
      (∀ j, Cb.AllocLength ≤ j → Cb'.Buffer.getD j 0 = 0) := by
  have hres : VerifiedCircBufResize true Cb NewAl =
      (true, { Cb with
        Buffer :=
          if 0 < Cb.ReadStart then
            memcpy (memcpy (List.replicate NewAl 0) 0
                ((Cb.Buffer.drop Cb.ReadStart).take (Cb.AllocLength - Cb.ReadStart)))
              (Cb.AllocLength - Cb.ReadStart) (Cb.Buffer.take Cb.ReadStart)
          else
            memcpy (List.replicate NewAl 0) 0
              ((Cb.Buffer.drop Cb.ReadStart).take (Cb.AllocLength - Cb.ReadStart)),
        ReadStart := 0, AllocLength := NewAl }) := rfl
  have hseg1len : ((Cb.Buffer.drop Cb.ReadStart).take
      (Cb.AllocLength - Cb.ReadStart)).length = Cb.AllocLength - Cb.ReadStart := by
    rw [List.length_take, List.length_drop, hbl]
    exact Nat.min_self _
  have htakelen : (Cb.Buffer.take Cb.ReadStart).length = Cb.ReadStart := by
    rw [List.length_take, hbl]
    exact min_eq_left hrs
  have hNB1len : (memcpy (List.replicate NewAl 0) 0
      ((Cb.Buffer.drop Cb.ReadStart).take (Cb.AllocLength - Cb.ReadStart))).length
      = NewAl := by
    rw [memcpy_length, List.length_replicate]
  have hNB1head : ∀ j, j < Cb.AllocLength - Cb.ReadStart →
      (memcpy (List.replicate NewAl 0) 0
        ((Cb.Buffer.drop Cb.ReadStart).take (Cb.AllocLength - Cb.ReadStart))).getD j 0
      = Cb.Buffer.getD (Cb.ReadStart + j) 0 := by
    intro j hj
    rw [memcpy_getD_in _ _ 0 j (Nat.zero_le _) (by omega)
        (by rw [List.length_replicate]; omega),
      Nat.sub_zero, getD_take _ hj, getD_drop]
  have hNB1rest : ∀ j, Cb.AllocLength - Cb.ReadStart ≤ j →
      (memcpy (List.replicate NewAl 0) 0
        ((Cb.Buffer.drop Cb.ReadStart).take (Cb.AllocLength - Cb.ReadStart))).getD j 0
      = 0 := by
    intro j hj
    rw [memcpy_getD_ge _ _ 0 j (by omega), getD_replicate]
  refine ⟨_, hres, rfl, rfl, rfl, rfl, ?_, ?_, ?_, ?_⟩
  · by_cases h0 : 0 < Cb.ReadStart
    · rw [if_pos h0, memcpy_length, hNB1len]
    · rw [if_neg h0, hNB1len]
  · intro j hj
    by_cases h0 : 0 < Cb.ReadStart
    · rw [if_pos h0, memcpy_getD_lt _ _ _ _ hj, hNB1head j hj]
    · rw [if_neg h0, hNB1head j hj]
  · intro j hj
    have h0 : 0 < Cb.ReadStart := by omega
    rw [if_pos h0,
      memcpy_getD_in _ _ _ _ (by omega) (by rw [htakelen]; omega)
        (by rw [hNB1len]; omega),
      Nat.add_sub_cancel_left, getD_take _ hj]
  · intro j hj
    by_cases h0 : 0 < Cb.ReadStart
    · rw [if_pos h0, memcpy_getD_ge _ _ _ _ (by rw [htakelen]; omega),
        hNB1rest j (by omega)]
    · rw [if_neg h0, hNB1rest j (by omega)]

-- ---------------------------------------------------------------------------
-- Characterization of the wrap-aware write placement
-- ---------------------------------------------------------------------------

theorem writePlace_ReadStart (Cb : VERIFIED_CIRC_BUFFER) (Src : List Nat) (p : Nat) :
    (VerifiedCircBufWritePlace Cb Src p).ReadStart = Cb.ReadStart := rfl

theorem writePlace_AllocLength (Cb : VERIFIED_CIRC_BUFFER) (Src : List Nat) (p : Nat) :
    (VerifiedCircBufWritePlace Cb Src p).AllocLength = Cb.AllocLength := rfl

theorem writePlace_VirtualLength (Cb : VERIFIED_CIRC_BUFFER) (Src : List Nat) (p : Nat) :
    (VerifiedCircBufWritePlace Cb Src p).VirtualLength = Cb.VirtualLength := rfl

theorem writePlace_PrefixLength (Cb : VERIFIED_CIRC_BUFFER) (Src : List Nat) (p : Nat) :
    (VerifiedCircBufWritePlace Cb Src p).PrefixLength = p + Src.length := rfl

theorem writePlace_Buffer (Cb : VERIFIED_CIRC_BUFFER) (Src : List Nat) (p : Nat) :
    (VerifiedCircBufWritePlace Cb Src p).Buffer =
      if Src.length ≤ Cb.AllocLength - (Cb.ReadStart + p) % Cb.AllocLength then
        memcpy Cb.Buffer ((Cb.ReadStart + p) % Cb.AllocLength) Src
      else
        memcpy (memcpy Cb.Buffer ((Cb.ReadStart + p) % Cb.AllocLength)
            (Src.take (Cb.AllocLength - (Cb.ReadStart + p) % Cb.AllocLength))) 0
          (Src.drop (Cb.AllocLength - (Cb.ReadStart + p) % Cb.AllocLength)) := rfl

theorem writePlace_length (Cb : VERIFIED_CIRC_BUFFER) (Src : List Nat) (p : Nat) :
    (VerifiedCircBufWritePlace Cb Src p).Buffer.length = Cb.Buffer.length := by
  rw [writePlace_Buffer]
  by_cases h : Src.length ≤ Cb.AllocLength - (Cb.ReadStart + p) % Cb.AllocLength
  · rw [if_pos h, memcpy_length]
  · rw [if_neg h, memcpy_length, memcpy_length]

/-- Generic wrap-split write (the `WriteLength <= SpaceToEnd` one-`memcpy` /
two-`memcpy` pattern of `VerifiedCircBufWriteBuffer`), written bytes: source
byte `j` lands at physical position `(ws + j) % al`. -/
theorem twoSegWrite_getD_new (Buf : List Nat) (al ws : Nat) (Src : List Nat)
    (hbl : Buf.length = al) (hws : ws < al) (hLal : Src.length ≤ al)
    {j : Nat} (hj : j < Src.length) :
    (if Src.length ≤ al - ws then memcpy Buf ws Src
     else memcpy (memcpy Buf ws (Src.take (al - ws))) 0
       (Src.drop (al - ws))).getD ((ws + j) % al) 0 = Src.getD j 0 := by
  by_cases h : Src.length ≤ al - ws
  · rw [if_pos h, Nat.mod_eq_of_lt (by omega),
      memcpy_getD_in _ _ _ _ (by omega) (by omega) (by omega),
      Nat.add_sub_cancel_left]
  · rw [if_neg h]
    have htl : (Src.take (al - ws)).length = al - ws := by
      rw [List.length_take]; omega
    have hdl : (Src.drop (al - ws)).length = Src.length - (al - ws) :=
      List.length_drop _ _
    by_cases hj2 : j < al - ws
    · rw [Nat.mod_eq_of_lt (by omega),
        memcpy_getD_ge _ _ _ _ (by omega),
        memcpy_getD_in _ _ _ _ (by omega) (by omega) (by omega),
        Nat.add_sub_cancel_left, getD_take _ hj2]
    · have hm : (ws + j) % al = ws + j - al :=
        mod_eq_sub_of_lt_two_mul (by omega) (by omega)
      rw [hm,
        memcpy_getD_in _ _ _ _ (by omega) (by omega)
          (by rw [memcpy_length]; omega),
        Nat.sub_zero, getD_drop]
      have heq : al - ws + (ws + j - al) = j := by omega
      rw [heq]

/-- Generic wrap-split write, untouched bytes: every physical position
reached with an offset `off` at or beyond the source length is unchanged. -/
theorem twoSegWrite_getD_old (Buf : List Nat) (al ws : Nat) (Src : List Nat)
    (hbl : Buf.length = al) (hws : ws < al) (hLal : Src.length ≤ al)
    {off : Nat} (h1 : Src.length ≤ off) (h2 : off < al) :
    (if Src.length ≤ al - ws then memcpy Buf ws Src
     else memcpy (memcpy Buf ws (Src.take (al - ws))) 0
       (Src.drop (al - ws))).getD ((ws + off) % al) 0 =
    Buf.getD ((ws + off) % al) 0 := by
  by_cases h : Src.length ≤ al - ws
  · rw [if_pos h]
    by_cases hc : ws + off < al
    · rw [Nat.mod_eq_of_lt hc, memcpy_getD_ge _ _ _ _ (by omega)]
    · have hm : (ws + off) % al = ws + off - al :=
        mod_eq_sub_of_lt_two_mul (by omega) (by omega)
      rw [hm, memcpy_getD_lt _ _ _ _ (by omega)]
  · rw [if_neg h]
    have htl : (Src.take (al - ws)).length = al - ws := by
      rw [List.length_take]; omega
    have hdl : (Src.drop (al - ws)).length = Src.length - (al - ws) :=
      List.length_drop _ _
    have hm : (ws + off) % al = ws + off - al :=
      mod_eq_sub_of_lt_two_mul (by omega) (by omega)
    rw [hm, memcpy_getD_ge _ _ _ _ (by omega),
      memcpy_getD_lt _ _ _ _ (by omega)]

/-- The bytes `VerifiedCircBufWritePlace` lays down: source byte `j` lands at
physical position `(ReadStart + p + j) % AllocLength`. -/
theorem writePlace_getD_new (Cb : VERIFIED_CIRC_BUFFER) (Src : List Nat) (p : Nat)
    (hbl : Cb.Buffer.length = Cb.AllocLength) (hal : 0 < Cb.AllocLength)
    (hLal : Src.length ≤ Cb.AllocLength) {j : Nat} (hj : j < Src.length) :
    (VerifiedCircBufWritePlace Cb Src p).Buffer.getD
      ((Cb.ReadStart + p + j) % Cb.AllocLength) 0 = Src.getD j 0 := by
  have hws : (Cb.ReadStart + p) % Cb.AllocLength < Cb.AllocLength :=
    Nat.mod_lt _ hal
  have h := twoSegWrite_getD_new Cb.Buffer Cb.AllocLength
    ((Cb.ReadStart + p) % Cb.AllocLength) Src hbl hws hLal hj
  rw [Nat.mod_add_mod] at h
  rw [writePlace_Buffer]
  exact h

/-- The bytes `VerifiedCircBufWritePlace` leaves untouched. -/
theorem writePlace_getD_old (Cb : VERIFIED_CIRC_BUFFER) (Src : List Nat) (p : Nat)
    (hbl : Cb.Buffer.length = Cb.AllocLength) (hal : 0 < Cb.AllocLength)
    (hLal : Src.length ≤ Cb.AllocLength) {off : Nat} (h1 : Src.length ≤ off)
    (h2 : off < Cb.AllocLength) :
    (VerifiedCircBufWritePlace Cb Src p).Buffer.getD
      ((Cb.ReadStart + p + off) % Cb.AllocLength) 0 =
    Cb.Buffer.getD ((Cb.ReadStart + p + off) % Cb.AllocLength) 0 := by
  have hws : (Cb.ReadStart + p) % Cb.AllocLength < Cb.AllocLength :=
    Nat.mod_lt _ hal
  have h := twoSegWrite_getD_old Cb.Buffer Cb.AllocLength
    ((Cb.ReadStart + p) % Cb.AllocLength) Src hbl hws hLal h1 h2
  rw [Nat.mod_add_mod] at h
  rw [writePlace_Buffer]
  exact h

-- ---------------------------------------------------------------------------
-- Characterization of the wrap-aware read
-- ---------------------------------------------------------------------------

/-- `VerifiedCircBufReadBuffer` returns exactly the `ReadLength` bytes at
physical positions `(ReadStart + j) % AllocLength`. -/
theorem readBuffer_spec (Cb : VERIFIED_CIRC_BUFFER) (ReadLength : Nat)
    (hbl : Cb.Buffer.length = Cb.AllocLength)
    (hrs : Cb.ReadStart < Cb.AllocLength)
    (hn : ReadLength ≤ Cb.AllocLength) :
    (VerifiedCircBufReadBuffer Cb ReadLength).length = ReadLength ∧
    ∀ j, j < ReadLength → (VerifiedCircBufReadBuffer Cb ReadLength).getD j 0 =
      Cb.Buffer.getD ((Cb.ReadStart + j) % Cb.AllocLength) 0 := by
  unfold VerifiedCircBufReadBuffer
  by_cases h : ReadLength ≤ Cb.AllocLength - Cb.ReadStart
  · rw [if_pos h]
    constructor
    · rw [List.length_take, List.length_drop, hbl]
      omega
    · intro j hj
      rw [getD_take _ hj, getD_drop, Nat.mod_eq_of_lt (by omega)]
  · rw [if_neg h]
    have hlen1 : ((Cb.Buffer.drop Cb.ReadStart).take
        (Cb.AllocLength - Cb.ReadStart)).length = Cb.AllocLength - Cb.ReadStart := by
      rw [List.length_take, List.length_drop, hbl]
      exact Nat.min_self _
    have hlen2 : (Cb.Buffer.take (ReadLength - (Cb.AllocLength - Cb.ReadStart))).length
        = ReadLength - (Cb.AllocLength - Cb.ReadStart) := by
      rw [List.length_take, hbl]
      omega
    constructor
    · rw [List.length_append, hlen1, hlen2]
      omega
    · intro j hj
      rw [List.getD_eq_getElem?_getD, List.getElem?_append, hlen1]
      by_cases hj2 : j < Cb.AllocLength - Cb.ReadStart
      · rw [if_pos hj2, ← List.getD_eq_getElem?_getD, getD_take _ hj2, getD_drop,
          Nat.mod_eq_of_lt (by omega)]
      · rw [if_neg hj2, ← List.getD_eq_getElem?_getD,
          getD_take _ (by omega),
          mod_eq_sub_of_lt_two_mul (by omega) (by omega)]
        have heq : Cb.ReadStart + j - Cb.AllocLength =
            j - (Cb.AllocLength - Cb.ReadStart) := by omega
        rw [heq]

-- ---------------------------------------------------------------------------
-- Ring invariant, coherence, and the reachability relation
-- ---------------------------------------------------------------------------

/-- The structural ring invariant (spec §3.1, invariants 1-3, plus the fact
that the backing allocation has exactly `AllocLength` bytes). -/
def RingInv (Cb : VERIFIED_CIRC_BUFFER) : Prop :=
  Cb.Buffer.length = Cb.AllocLength ∧
  IsPow2 Cb.AllocLength ∧
  IsPow2 Cb.VirtualLength ∧
  Cb.AllocLength ≤ Cb.VirtualLength ∧
  Cb.ReadStart < Cb.AllocLength ∧
  Cb.PrefixLength ≤ Cb.AllocLength

/-- Physical-logical coherence (spec §3.1 invariant 4 / property P5): the
ghost list `Stream` is the logical contiguous prefix, and for every logical
offset `i < PrefixLength` the byte at physical index
`(ReadStart + i) % AllocLength` is logical byte `i`. -/
def Coheres (Cb : VERIFIED_CIRC_BUFFER) (Stream : List Nat) : Prop :=
  Stream.length = Cb.PrefixLength ∧
  ∀ i, i < Cb.PrefixLength →
    Cb.Buffer.getD ((Cb.ReadStart + i) % Cb.AllocLength) 0 = Stream.getD i 0

/-- States reachable by the ring operations, together with the ghost logical
stream.  Constructors carry exactly the documented preconditions of
`circular_buffer_verified.h`: sizes are positive powers of two with
`AllocLength ≤ VirtualLength`; `WriteByte` is used the way L1 uses it
(append one byte at offset `PrefixLength` with the correct new prefix
length); `WriteBuffer` requires `PrefixLength + WriteLength ≤ VirtualLength`;
`Drain` requires `DrainLength ≤ PrefixLength`; `Resize` requires a power of
two strictly above `AllocLength` and at most `VirtualLength`.  Allocation
failures are included (`allocOk` arbitrary): a failed resize leaves the
state unchanged. -/
inductive Reachable : VERIFIED_CIRC_BUFFER → List Nat → Prop where
  | init (AllocLength VirtualLength : Nat) (h1 : IsPow2 AllocLength)
      (h2 : IsPow2 VirtualLength) (h3 : AllocLength ≤ VirtualLength) :
      Reachable (VerifiedCircBufInitState AllocLength VirtualLength) []
  | writeByte {Cb : VERIFIED_CIRC_BUFFER} {Stream : List Nat} (Byte : Nat)
      (h : Reachable Cb Stream) (hsp : Cb.PrefixLength < Cb.AllocLength) :
      Reachable (VerifiedCircBufWriteByte Cb Cb.PrefixLength Byte
        (Cb.PrefixLength + 1)) (Stream ++ [Byte])
  | writeBuffer {Cb : VERIFIED_CIRC_BUFFER} {Stream : List Nat}
      (Source : List Nat) (allocOk : Bool) (h : Reachable Cb Stream)
      (hvl : Cb.PrefixLength + Source.length ≤ Cb.VirtualLength) :
      Reachable (VerifiedCircBufWriteBuffer allocOk Cb Source).2.2
        (if (VerifiedCircBufWriteBuffer allocOk Cb Source).2.1 then Stream
         else Stream ++ Source)
  | drain {Cb : VERIFIED_CIRC_BUFFER} {Stream : List Nat} (DrainLength : Nat)
      (h : Reachable Cb Stream) (hn : DrainLength ≤ Cb.PrefixLength) :
      Reachable (VerifiedCircBufDrain Cb DrainLength) (Stream.drop DrainLength)
  | resize {Cb : VERIFIED_CIRC_BUFFER} {Stream : List Nat} (NewAl : Nat)
      (allocOk : Bool) (h : Reachable Cb Stream) (hp : IsPow2 NewAl)
      (hlt : Cb.AllocLength < NewAl) (hle : NewAl ≤ Cb.VirtualLength) :
      Reachable (VerifiedCircBufResize allocOk Cb NewAl).2 Stream

-- ---------------------------------------------------------------------------
-- Small helpers for the preservation proofs
-- ---------------------------------------------------------------------------

theorem getD_append_left (a b : List Nat) {j : Nat} (h : j < a.length) :
    (a ++ b).getD j 0 = a.getD j 0 := by
  rw [List.getD_eq_getElem?_getD, List.getElem?_append, if_pos h,
    ← List.getD_eq_getElem?_getD]

theorem getD_append_right (a b : List Nat) {j : Nat} (h : a.length ≤ j) :
    (a ++ b).getD j 0 = b.getD (j - a.length) 0 := by
  rw [List.getD_eq_getElem?_getD, List.getElem?_append_right h,
    ← List.getD_eq_getElem?_getD]

/-- Distinct logical offsets below `al` map to distinct physical indices. -/
theorem mod_shift_inj {rs a b al : Nat} (ha : a < al) (hb2 : b < al)
    (h : (rs + a) % al = (rs + b) % al) : a = b := by
  have hal : 0 < al := by omega
  have hr : rs % al < al := Nat.mod_lt _ hal
  have ea : (rs + a) % al = (rs % al + a) % al := (Nat.mod_add_mod rs al a).symm
  have eb : (rs + b) % al = (rs % al + b) % al := (Nat.mod_add_mod rs al b).symm
  rw [ea, eb] at h
  rcases Nat.lt_or_ge (rs % al + a) al with h1 | h1 <;>
    rcases Nat.lt_or_ge (rs % al + b) al with h2 | h2
  · rw [Nat.mod_eq_of_lt h1, Nat.mod_eq_of_lt h2] at h; omega
  · rw [Nat.mod_eq_of_lt h1, mod_eq_sub_of_lt_two_mul h2 (by omega)] at h; omega
  · rw [mod_eq_sub_of_lt_two_mul h1 (by omega), Nat.mod_eq_of_lt h2] at h; omega
  · rw [mod_eq_sub_of_lt_two_mul h1 (by omega),
      mod_eq_sub_of_lt_two_mul h2 (by omega)] at h; omega

theorem list_eq_of_getD : ∀ (a b : List Nat), a.length = b.length →
    (∀ j, j < a.length → a.getD j 0 = b.getD j 0) → a = b := by
  intro a
  induction a with
  | nil =>
    intro b h _
    cases b with
    | nil => rfl
    | cons y ys => simp at h
  | cons x xs ih =>
    intro b h hj
    cases b with
    | nil => simp at h
    | cons y ys =>
      have h0 := hj 0 (by simp)
      simp only [List.getD_cons_zero] at h0
      have htail : xs = ys := by
        refine ih ys (by simpa using h) ?_
        intro j hjj
        have := hj (j + 1) (by simp only [List.length_cons]; omega)
        simpa only [List.getD_cons_succ] using this
      rw [h0, htail]

theorem drain_fields (Cb : VERIFIED_CIRC_BUFFER) (n : Nat) :
    (VerifiedCircBufDrain Cb n).Buffer = Cb.Buffer ∧
    (VerifiedCircBufDrain Cb n).ReadStart = (Cb.ReadStart + n) % Cb.AllocLength ∧
    (VerifiedCircBufDrain Cb n).AllocLength = Cb.AllocLength ∧
    (VerifiedCircBufDrain Cb n).PrefixLength = Cb.PrefixLength - n ∧
    (VerifiedCircBufDrain Cb n).VirtualLength = Cb.VirtualLength :=
  ⟨rfl, rfl, rfl, rfl, rfl⟩

theorem writeByte_fields (Cb : VERIFIED_CIRC_BUFFER) (Offset Byte NewPl : Nat) :
    (VerifiedCircBufWriteByte Cb Offset Byte NewPl).Buffer =
      Cb.Buffer.set ((Cb.ReadStart + Offset) % Cb.AllocLength) Byte ∧
    (VerifiedCircBufWriteByte Cb Offset Byte NewPl).ReadStart = Cb.ReadStart ∧
    (VerifiedCircBufWriteByte Cb Offset Byte NewPl).AllocLength = Cb.AllocLength ∧
    (VerifiedCircBufWriteByte Cb Offset Byte NewPl).PrefixLength = NewPl ∧
    (VerifiedCircBufWriteByte Cb Offset Byte NewPl).VirtualLength = Cb.VirtualLength :=
  ⟨rfl, rfl, rfl, rfl, rfl⟩

-- ---------------------------------------------------------------------------
-- Preservation of the invariant and of coherence, operation by operation
-- ---------------------------------------------------------------------------

theorem init_preserves (AllocLength VirtualLength : Nat)
    (h1 : IsPow2 AllocLength) (h2 : IsPow2 VirtualLength)
    (h3 : AllocLength ≤ VirtualLength) :
    RingInv (VerifiedCircBufInitState AllocLength VirtualLength) ∧
    Coheres (VerifiedCircBufInitState AllocLength VirtualLength) [] := by
  refine ⟨⟨List.length_replicate _ _, h1, h2, h3, h1.pos, Nat.zero_le _⟩, rfl, ?_⟩
  intro i hi
  exact absurd hi (by simp [VerifiedCircBufInitState])

theorem writeByte_preserves {Cb : VERIFIED_CIRC_BUFFER} {Stream : List Nat}
    (Byte : Nat) (hInv : RingInv Cb) (hCo : Coheres Cb Stream)
    (hsp : Cb.PrefixLength < Cb.AllocLength) :
    RingInv (VerifiedCircBufWriteByte Cb Cb.PrefixLength Byte (Cb.PrefixLength + 1)) ∧
    Coheres (VerifiedCircBufWriteByte Cb Cb.PrefixLength Byte (Cb.PrefixLength + 1))
      (Stream ++ [Byte]) := by
  obtain ⟨hbl, hpal, hpvl, hav, hrs, hpl⟩ := hInv
  obtain ⟨hsl, hco⟩ := hCo
  obtain ⟨hB, hR, hA, hP, hV⟩ := writeByte_fields Cb Cb.PrefixLength Byte
    (Cb.PrefixLength + 1)
  have hal : 0 < Cb.AllocLength := by omega
  refine ⟨⟨?_, ?_, ?_, ?_, ?_, ?_⟩, ?_, ?_⟩
  · rw [hB, List.length_set, hbl, hA]
  · rw [hA]; exact hpal
  · rw [hV]; exact hpvl
  · rw [hA, hV]; exact hav
  · rw [hR, hA]; exact hrs
  · rw [hP, hA]; omega
  · rw [hP, List.length_append, hsl]; rfl
  · intro i hi
    rw [hP] at hi
    rw [hB, hR, hA]
    by_cases hip : i = Cb.PrefixLength
    · subst hip
      rw [getD_set_self _ _ _ (by rw [hbl]; exact Nat.mod_lt _ hal),
        getD_append_right _ _ (by omega)]
      rw [hsl]
      simp
    · have hne : (Cb.ReadStart + Cb.PrefixLength) % Cb.AllocLength ≠
          (Cb.ReadStart + i) % Cb.AllocLength := by
        intro hcon
        exact hip (mod_shift_inj hsp (by omega) hcon).symm
      rw [getD_set_ne _ _ hne, getD_append_left _ _ (by omega),
        hco i (by omega)]

theorem drain_preserves {Cb : VERIFIED_CIRC_BUFFER} {Stream : List Nat}
    (n : Nat) (hInv : RingInv Cb) (hCo : Coheres Cb Stream)
    (hn : n ≤ Cb.PrefixLength) :
    RingInv (VerifiedCircBufDrain Cb n) ∧
    Coheres (VerifiedCircBufDrain Cb n) (Stream.drop n) := by
  obtain ⟨hbl, hpal, hpvl, hav, hrs, hpl⟩ := hInv
  obtain ⟨hsl, hco⟩ := hCo
  obtain ⟨hB, hR, hA, hP, hV⟩ := drain_fields Cb n
  have hal : 0 < Cb.AllocLength := by omega
  refine ⟨⟨?_, ?_, ?_, ?_, ?_, ?_⟩, ?_, ?_⟩
  · rw [hB, hbl, hA]
  · rw [hA]; exact hpal
  · rw [hV]; exact hpvl
  · rw [hA, hV]; exact hav
  · rw [hR, hA]; exact Nat.mod_lt _ hal
  · rw [hP, hA]; omega
  · rw [hP, List.length_drop, hsl]
  · intro i hi
    rw [hP] at hi
    rw [hB, hR, hA, Nat.mod_add_mod, getD_drop, Nat.add_assoc,
      hco (n + i) (by omega)]

/-- A successful resize to any size at least the current allocation keeps
the ghost stream coherent (the linearization is correct). -/
theorem resize_coh {Cb : VERIFIED_CIRC_BUFFER} {Stream : List Nat} (NewAl : Nat)
    (hInv : RingInv Cb) (hCo : Coheres Cb Stream) (hle : Cb.AllocLength ≤ NewAl) :
    ∃ Cb', VerifiedCircBufResize true Cb NewAl = (true, Cb') ∧
      Cb'.ReadStart = 0 ∧ Cb'.AllocLength = NewAl ∧
      Cb'.PrefixLength = Cb.PrefixLength ∧ Cb'.VirtualLength = Cb.VirtualLength ∧
      Cb'.Buffer.length = NewAl ∧ Coheres Cb' Stream := by
  obtain ⟨hbl, hpal, hpvl, hav, hrs, hpl⟩ := hInv
  obtain ⟨hsl, hco⟩ := hCo
  obtain ⟨Cb', hres, hR, hA, hP, hV, hL, hhead, htail, hzero⟩ :=
    resize_success Cb NewAl hbl (by omega) hle
  refine ⟨Cb', hres, hR, hA, hP, hV, hL, ?_, ?_⟩
  · rw [hP]; exact hsl
  · intro i hi
    rw [hP] at hi
    rw [hR, hA, Nat.zero_add, Nat.mod_eq_of_lt (by omega)]
    by_cases hcase : i < Cb.AllocLength - Cb.ReadStart
    · rw [hhead i hcase]
      have hc := hco i (by omega)
      rw [Nat.mod_eq_of_lt (by omega)] at hc
      exact hc
    · have h2 := htail (i - (Cb.AllocLength - Cb.ReadStart)) (by omega)
      have hidx : Cb.AllocLength - Cb.ReadStart +
          (i - (Cb.AllocLength - Cb.ReadStart)) = i := by omega
      rw [hidx] at h2
      rw [h2]
      have hc := hco i (by omega)
      rw [mod_eq_sub_of_lt_two_mul (by omega) (by omega)] at hc
      have heq : Cb.ReadStart + i - Cb.AllocLength =
          i - (Cb.AllocLength - Cb.ReadStart) := by omega
      rw [heq] at hc
      exact hc

theorem resize_preserves {Cb : VERIFIED_CIRC_BUFFER} {Stream : List Nat}
    (NewAl : Nat) (allocOk : Bool) (hInv : RingInv Cb) (hCo : Coheres Cb Stream)
    (hp : IsPow2 NewAl) (hlt : Cb.AllocLength ≤ NewAl)
    (hle : NewAl ≤ Cb.VirtualLength) :
    RingInv (VerifiedCircBufResize allocOk Cb NewAl).2 ∧
    Coheres (VerifiedCircBufResize allocOk Cb NewAl).2 Stream := by
  cases allocOk with
  | false => exact ⟨hInv, hCo⟩
  | true =>
    obtain ⟨Cb', hres, hR, hA, hP, hV, hL, hco'⟩ := resize_coh NewAl hInv hCo hlt
    obtain ⟨hbl, hpal, hpvl, hav, hrs, hpl⟩ := hInv
    rw [hres]
    refine ⟨⟨?_, ?_, ?_, ?_, ?_, ?_⟩, hco'⟩
    · show Cb'.Buffer.length = Cb'.AllocLength
      rw [hL, hA]
    · show IsPow2 Cb'.AllocLength
      rw [hA]; exact hp
    · show IsPow2 Cb'.VirtualLength
      rw [hV]; exact hpvl
    · show Cb'.AllocLength ≤ Cb'.VirtualLength
      rw [hA, hV]; exact hle
    · show Cb'.ReadStart < Cb'.AllocLength
      rw [hR, hA]; exact hp.pos
    · show Cb'.PrefixLength ≤ Cb'.AllocLength
      rw [hP, hA]; omega

/-- The wrap-aware placement keeps coherence: the new ghost stream is the
old one with the source appended. -/
theorem writePlace_coh (Cb : VERIFIED_CIRC_BUFFER) (Src Stream : List Nat)
    (p : Nat) (hbl : Cb.Buffer.length = Cb.AllocLength) (hal : 0 < Cb.AllocLength)
    (hpp : Cb.PrefixLength = p) (hCo : Coheres Cb Stream)
    (hfit : p + Src.length ≤ Cb.AllocLength) :
    Coheres (VerifiedCircBufWritePlace Cb Src p) (Stream ++ Src) := by
  obtain ⟨hsl, hco⟩ := hCo
  refine ⟨?_, ?_⟩
  · rw [writePlace_PrefixLength, List.length_append, hsl, hpp]
  · intro i hi
    rw [writePlace_PrefixLength] at hi
    rw [writePlace_ReadStart, writePlace_AllocLength]
    by_cases hip : i < p
    · have hoff := @writePlace_getD_old Cb Src p hbl hal (by omega)
        (Cb.AllocLength - p + i) (by omega) (by omega)
      have h9 : Cb.ReadStart + p + (Cb.AllocLength - p + i) =
          Cb.ReadStart + i + Cb.AllocLength := by omega
      rw [h9, Nat.add_mod_right] at hoff
      rw [hoff, hco i (by omega), getD_append_left _ _ (by omega)]
    · have hj := @writePlace_getD_new Cb Src p hbl hal (by omega)
        (i - p) (by omega)
      have hidx : Cb.ReadStart + p + (i - p) = Cb.ReadStart + i := by omega
      rw [hidx] at hj
      rw [hj, getD_append_right _ _ (by omega), hsl, hpp]

theorem writePlace_inv (Cb : VERIFIED_CIRC_BUFFER) (Src : List Nat) (p : Nat)
    (hInv : RingInv Cb) (hfit : p + Src.length ≤ Cb.AllocLength) :
    RingInv (VerifiedCircBufWritePlace Cb Src p) := by
  obtain ⟨hbl, hpal, hpvl, hav, hrs, hpl⟩ := hInv
  refine ⟨?_, ?_, ?_, ?_, ?_, ?_⟩
  · rw [writePlace_length, writePlace_AllocLength, hbl]
  · rw [writePlace_AllocLength]; exact hpal
  · rw [writePlace_VirtualLength]; exact hpvl
  · rw [writePlace_AllocLength, writePlace_VirtualLength]; exact hav
  · rw [writePlace_ReadStart, writePlace_AllocLength]; exact hrs
  · rw [writePlace_PrefixLength, writePlace_AllocLength]; omega

-- ---------------------------------------------------------------------------
-- Evaluation lemmas for `VerifiedCircBufWriteBuffer`'s three paths
-- ---------------------------------------------------------------------------

theorem writeBuffer_allocFail (Cb : VERIFIED_CIRC_BUFFER) (Src : List Nat)
    (hg : Cb.AllocLength < Cb.PrefixLength + Src.length) :
    VerifiedCircBufWriteBuffer false Cb Src = (false, true, Cb) := by
  unfold VerifiedCircBufWriteBuffer
  rw [if_pos hg]
  rfl

theorem writeBuffer_noGrow (Cb : VERIFIED_CIRC_BUFFER) (Src : List Nat)
    (allocOk : Bool)
    (hng : ¬ Cb.AllocLength < Cb.PrefixLength + Src.length) :
    VerifiedCircBufWriteBuffer allocOk Cb Src =
      (decide (0 < Src.length), false,
        VerifiedCircBufWritePlace Cb Src Cb.PrefixLength) := by
  unfold VerifiedCircBufWriteBuffer
  rw [if_neg hng]

theorem writeBuffer_grow (Cb Cb' : VERIFIED_CIRC_BUFFER) (Src : List Nat)
    (hg : Cb.AllocLength < Cb.PrefixLength + Src.length)
    (hres : VerifiedCircBufResize true Cb
      (growLoop Cb.AllocLength (Cb.PrefixLength + Src.length)) = (true, Cb')) :
    VerifiedCircBufWriteBuffer true Cb Src =
      (decide (0 < Src.length), false,
        VerifiedCircBufWritePlace Cb' Src Cb.PrefixLength) := by
  unfold VerifiedCircBufWriteBuffer
  rw [if_pos hg, hres]

theorem writeBuffer_preserves {Cb : VERIFIED_CIRC_BUFFER} {Stream : List Nat}
    (Src : List Nat) (allocOk : Bool) (hInv : RingInv Cb)
    (hCo : Coheres Cb Stream)
    (hvl : Cb.PrefixLength + Src.length ≤ Cb.VirtualLength) :
    RingInv (VerifiedCircBufWriteBuffer allocOk Cb Src).2.2 ∧
    Coheres (VerifiedCircBufWriteBuffer allocOk Cb Src).2.2
      (if (VerifiedCircBufWriteBuffer allocOk Cb Src).2.1 then Stream
       else Stream ++ Src) := by
  by_cases hg : Cb.AllocLength < Cb.PrefixLength + Src.length
  · cases allocOk with
    | false =>
      rw [writeBuffer_allocFail Cb Src hg]
      exact ⟨hInv, hCo⟩
    | true =>
      obtain ⟨hbl, hpal, hpvl, hav, hrs, hpl⟩ := hInv
      have h0al : 0 < Cb.AllocLength := hpal.pos
      have hge : Cb.PrefixLength + Src.length ≤
          growLoop Cb.AllocLength (Cb.PrefixLength + Src.length) :=
        growLoop_ge _ h0al
      have hp2 : IsPow2 (growLoop Cb.AllocLength (Cb.PrefixLength + Src.length)) :=
        growLoop_pow2 _ hpal
      have hlev : growLoop Cb.AllocLength (Cb.PrefixLength + Src.length) ≤
          Cb.VirtualLength := growLoop_le_bound hpal hpvl hav hvl
      have hles : Cb.AllocLength ≤
          growLoop Cb.AllocLength (Cb.PrefixLength + Src.length) :=
        growLoop_le_self _ _
      obtain ⟨Cb', hres, hR, hA, hP, hV, hL, hco'⟩ :=
        resize_coh _ ⟨hbl, hpal, hpvl, hav, hrs, hpl⟩ hCo hles
      rw [writeBuffer_grow Cb Cb' Src hg hres]
      constructor
      · refine writePlace_inv Cb' Src Cb.PrefixLength
          ⟨?_, ?_, ?_, ?_, ?_, ?_⟩ ?_
        · rw [hL, hA]
        · rw [hA]; exact hp2
        · rw [hV]; exact hpvl
        · rw [hA, hV]; exact hlev
        · rw [hR, hA]; exact hp2.pos
        · rw [hP, hA]; omega
        · rw [hA]; exact hge
      · exact writePlace_coh Cb' Src Stream Cb.PrefixLength
          (by rw [hL, hA]) (by rw [hA]; exact hp2.pos) hP hco'
          (by rw [hA]; exact hge)
  · rw [writeBuffer_noGrow Cb Src allocOk hg]
    obtain ⟨hbl, hpal, hpvl, hav, hrs, hpl⟩ := hInv
    constructor
    · exact writePlace_inv Cb Src Cb.PrefixLength
        ⟨hbl, hpal, hpvl, hav, hrs, hpl⟩ (by omega)
    · exact writePlace_coh Cb Src Stream Cb.PrefixLength hbl (by omega) rfl
        hCo (by omega)

-- ---------------------------------------------------------------------------
-- Invariant and coherence hold in every reachable state
-- ---------------------------------------------------------------------------

theorem reachable_inv {Cb : VERIFIED_CIRC_BUFFER} {Stream : List Nat}
    (h : Reachable Cb Stream) : RingInv Cb ∧ Coheres Cb Stream := by
  induction h with
  | init AllocLength VirtualLength h1 h2 h3 =>
    exact init_preserves AllocLength VirtualLength h1 h2 h3
  | writeByte Byte h hsp ih => exact writeByte_preserves Byte ih.1 ih.2 hsp
  | writeBuffer Source allocOk h hvl ih =>
    exact writeBuffer_preserves Source allocOk ih.1 ih.2 hvl
  | drain DrainLength h hn ih => exact drain_preserves DrainLength ih.1 ih.2 hn
  | resize NewAl allocOk h hp hlt hle ih =>
    exact resize_preserves NewAl allocOk ih.1 ih.2 hp (Nat.le_of_lt hlt) hle

theorem resize_false_eq (Cb : VERIFIED_CIRC_BUFFER) (NewAl : Nat) :
    VerifiedCircBufResize false Cb NewAl = (false, Cb) := rfl

theorem resize_true_pair (Cb : VERIFIED_CIRC_BUFFER) (NewAl : Nat) :
    VerifiedCircBufResize true Cb NewAl =
      (true, (VerifiedCircBufResize true Cb NewAl).2) := rfl

theorem resize_true_AllocLength (Cb : VERIFIED_CIRC_BUFFER) (NewAl : Nat) :
    (VerifiedCircBufResize true Cb NewAl).2.AllocLength = NewAl := rfl

-- ---------------------------------------------------------------------------
-- Claim theorems
-- ---------------------------------------------------------------------------

/-- C1: physical-logical coherence is an invariant of the ring.  In every
state reachable by `VerifiedCircBufInitState` (the success state of
Initialize), `VerifiedCircBufWriteByte` with the correct new prefix length,
`VerifiedCircBufWriteBuffer`, `VerifiedCircBufDrain` and
`VerifiedCircBufResize` (in particular across a resize), the structural
invariant holds, and for every logical offset `i < PrefixLength` the byte at
physical index `(ReadStart + i) % AllocLength` equals the logical byte `i`
of the ghost stream, so `VerifiedCircBufReadByte i` returns it. -/
theorem ring_coherence_invariant {Cb : VERIFIED_CIRC_BUFFER} {Stream : List Nat}
    (h : Reachable Cb Stream) :
    RingInv Cb ∧ Coheres Cb Stream ∧
    ∀ i, i < Cb.PrefixLength → VerifiedCircBufReadByte Cb i = Stream.getD i 0 := by
  obtain ⟨hInv, hCo⟩ := reachable_inv h
  exact ⟨hInv, hCo, fun i hi => hCo.2 i hi⟩

/-- C1 witness: the theorem applied to the concrete state reached by
initializing a ring of allocation 2, virtual length 4, and writing the two
bytes `[5, 6]`. -/
theorem ring_coherence_invariant_witness :
    RingInv (VerifiedCircBufWriteBuffer true (VerifiedCircBufInitState 2 4)
      [5, 6]).2.2 ∧
    Coheres (VerifiedCircBufWriteBuffer true (VerifiedCircBufInitState 2 4)
      [5, 6]).2.2 [5, 6] ∧
    ∀ i, i < (VerifiedCircBufWriteBuffer true (VerifiedCircBufInitState 2 4)
        [5, 6]).2.2.PrefixLength →
      VerifiedCircBufReadByte (VerifiedCircBufWriteBuffer true
        (VerifiedCircBufInitState 2 4) [5, 6]).2.2 i = List.getD [5, 6] i 0 :=
  ring_coherence_invariant
    (Reachable.writeBuffer [5, 6] true
      (Reachable.init 2 4 ⟨1, rfl⟩ ⟨2, rfl⟩ (by decide)) (by decide))

/-- C8: round trip.  For every reachable state (built by successful writes
appending chunks in order, interleaved with drains that drop exactly what
was read), reading any `n ≤ PrefixLength` bytes with
`VerifiedCircBufReadBuffer` returns exactly the first `n` bytes of the
concatenation of the written inputs (minus what was drained), i.e. the
ghost stream. -/
theorem read_round_trip {Cb : VERIFIED_CIRC_BUFFER} {Stream : List Nat}
    (h : Reachable Cb Stream) (n : Nat) (hn : n ≤ Cb.PrefixLength) :
    VerifiedCircBufReadBuffer Cb n = Stream.take n := by
  obtain ⟨⟨hbl, hpal, hpvl, hav, hrs, hpl⟩, hsl, hco⟩ := reachable_inv h
  obtain ⟨hlen, hget⟩ := readBuffer_spec Cb n hbl hrs (by omega)
  refine list_eq_of_getD _ _ ?_ ?_
  · rw [hlen, List.length_take, hsl]
    omega
  · intro j hj
    rw [hlen] at hj
    rw [hget j hj, hco j (by omega), getD_take _ hj]

/-- C8 witness: after writing `[5, 6]` into a fresh ring of allocation 2,
reading 2 bytes returns `[5, 6]`. -/
theorem read_round_trip_witness :
    VerifiedCircBufReadBuffer (VerifiedCircBufWriteBuffer true
      (VerifiedCircBufInitState 2 4) [5, 6]).2.2 2 = List.take 2 [5, 6] :=
  read_round_trip
    (Reachable.writeBuffer [5, 6] true
      (Reachable.init 2 4 ⟨1, rfl⟩ ⟨2, rfl⟩ (by decide)) (by decide))
    2 (by decide)

/-- C2: for every ring state satisfying the data-model bounds and every
`NewAl` with the documented preconditions (`NewAl` a power of two,
`AllocLength < NewAl ≤ VirtualLength`), a successful resize produces a
buffer whose bytes `[0, AllocLength - ReadStart)` are the old physical
bytes `[ReadStart, AllocLength)`, whose bytes
`[AllocLength - ReadStart, AllocLength)` are the old physical bytes
`[0, ReadStart)`, and whose remaining bytes are zero; afterwards
`ReadStart = 0`, `AllocLength = NewAl`, `PrefixLength` unchanged. -/
theorem resize_linearizes (Cb : VERIFIED_CIRC_BUFFER) (NewAl : Nat)
    (hbl : Cb.Buffer.length = Cb.AllocLength)
    (hrs : Cb.ReadStart < Cb.AllocLength)
    (hp : IsPow2 NewAl) (hlt : Cb.AllocLength < NewAl)
    (hle : NewAl ≤ Cb.VirtualLength) :
    ∃ Cb', VerifiedCircBufResize true Cb NewAl = (true, Cb') ∧
      Cb'.ReadStart = 0 ∧ Cb'.AllocLength = NewAl ∧
      Cb'.PrefixLength = Cb.PrefixLength ∧
      Cb'.VirtualLength = Cb.VirtualLength ∧
      Cb'.Buffer.length = NewAl ∧
      (∀ j, j < Cb.AllocLength - Cb.ReadStart →
        Cb'.Buffer.getD j 0 = Cb.Buffer.getD (Cb.ReadStart + j) 0) ∧
      (∀ j, j < Cb.ReadStart →
        Cb'.Buffer.getD (Cb.AllocLength - Cb.ReadStart + j) 0 =
          Cb.Buffer.getD j 0) ∧
      (∀ j, Cb.AllocLength ≤ j → j < NewAl → Cb'.Buffer.getD j 0 = 0) := by
  obtain ⟨Cb', hres, hR, hA, hP, hV, hL, hh, ht, hz⟩ :=
    resize_success Cb NewAl hbl (by omega) (by omega)
  exact ⟨Cb', hres, hR, hA, hP, hV, hL, hh, ht, fun j h1 _ => hz j h1⟩

/-- C2 witness: resizing the concrete wrapped ring
`Buffer = [10, 20], ReadStart = 1, AllocLength = 2, PrefixLength = 1,
VirtualLength = 4` to 4 bytes. -/
theorem resize_linearizes_witness :
    ∃ Cb', VerifiedCircBufResize true ⟨[10, 20], 1, 2, 1, 4⟩ 4 = (true, Cb') ∧
      Cb'.ReadStart = 0 ∧ Cb'.AllocLength = 4 ∧
      Cb'.PrefixLength = 1 ∧
      Cb'.VirtualLength = 4 ∧
      Cb'.Buffer.length = 4 ∧
      (∀ j, j < 1 → Cb'.Buffer.getD j 0 = List.getD [10, 20] (1 + j) 0) ∧
      (∀ j, j < 1 → Cb'.Buffer.getD (1 + j) 0 = List.getD [10, 20] j 0) ∧
      (∀ j, 2 ≤ j → j < 4 → Cb'.Buffer.getD j 0 = 0) :=
  resize_linearizes ⟨[10, 20], 1, 2, 1, 4⟩ 4 rfl (by decide) ⟨2, rfl⟩
    (by decide) (by decide)

/-- C3: when `PrefixLength + WriteLength > AllocLength`, a successful
`VerifiedCircBufWriteBuffer` first resizes to the smallest power of two at
least `PrefixLength + WriteLength` (and strictly larger than the old
allocation), then copies the source bytes to physical positions starting at
`(ReadStart + PrefixLength) % AllocLength` of the resized ring, and sets
`PrefixLength` to `PrefixLength + WriteLength`. -/
theorem writeBuffer_grow_spec (Cb : VERIFIED_CIRC_BUFFER) (Src : List Nat)
    (hInv : RingInv Cb)
    (hg : Cb.AllocLength < Cb.PrefixLength + Src.length)
    (hvl : Cb.PrefixLength + Src.length ≤ Cb.VirtualLength) :
    ∃ Cb', VerifiedCircBufWriteBuffer true Cb Src =
        (decide (0 < Src.length), false, Cb') ∧
      Cb'.AllocLength = growLoop Cb.AllocLength (Cb.PrefixLength + Src.length) ∧
      IsPow2 Cb'.AllocLength ∧
      Cb.PrefixLength + Src.length ≤ Cb'.AllocLength ∧
      Cb.AllocLength < Cb'.AllocLength ∧
      (∀ m, IsPow2 m → Cb.PrefixLength + Src.length ≤ m → Cb'.AllocLength ≤ m) ∧
      Cb'.ReadStart = 0 ∧
      Cb'.PrefixLength = Cb.PrefixLength + Src.length ∧
      ∀ j, j < Src.length →
        Cb'.Buffer.getD ((Cb'.ReadStart + Cb.PrefixLength + j) %
          Cb'.AllocLength) 0 = Src.getD j 0 := by
  obtain ⟨hbl, hpal, hpvl, hav, hrs, hpl⟩ := hInv
  have h0al : 0 < Cb.AllocLength := hpal.pos
  have hge : Cb.PrefixLength + Src.length ≤
      growLoop Cb.AllocLength (Cb.PrefixLength + Src.length) :=
    growLoop_ge _ h0al
  obtain ⟨Cb', hres, hR, hA, hP, hV, hL, hh, ht, hz⟩ :=
    resize_success Cb (growLoop Cb.AllocLength (Cb.PrefixLength + Src.length))
      hbl (by omega) (growLoop_le_self _ _)
  refine ⟨VerifiedCircBufWritePlace Cb' Src Cb.PrefixLength,
    writeBuffer_grow Cb Cb' Src hg hres, ?_, ?_, ?_, ?_, ?_, ?_, ?_, ?_⟩
  · rw [writePlace_AllocLength, hA]
  · rw [writePlace_AllocLength, hA]
    exact growLoop_pow2 _ hpal
  · rw [writePlace_AllocLength, hA]
    exact hge
  · rw [writePlace_AllocLength, hA]
    omega
  · intro m hm hmn
    rw [writePlace_AllocLength, hA]
    exact growLoop_le_bound hpal hm (by omega) hmn
  · rw [writePlace_ReadStart, hR]
  · rw [writePlace_PrefixLength]
  · intro j hj
    have hnew := @writePlace_getD_new Cb' Src Cb.PrefixLength
      (by rw [hL, hA]) (by rw [hA]; omega) (by rw [hA]; omega) j hj
    rw [writePlace_ReadStart, writePlace_AllocLength]
    exact hnew

/-- C3 witness: the wrapped two-byte ring `[7, 8]` with `ReadStart = 1`,
`PrefixLength = 2`, written with one extra byte, grows to 4 and places the
byte after the prefix. -/
theorem writeBuffer_grow_spec_witness :
    ∃ Cb', VerifiedCircBufWriteBuffer true ⟨[7, 8], 1, 2, 2, 8⟩ [5] =
        (decide (0 < List.length [5]), false, Cb') ∧
      Cb'.AllocLength = growLoop 2 (2 + List.length [5]) ∧
      IsPow2 Cb'.AllocLength ∧
      2 + List.length [5] ≤ Cb'.AllocLength ∧
      2 < Cb'.AllocLength ∧
      (∀ m, IsPow2 m → 2 + List.length [5] ≤ m → Cb'.AllocLength ≤ m) ∧
      Cb'.ReadStart = 0 ∧
      Cb'.PrefixLength = 2 + List.length [5] ∧
      ∀ j, j < List.length [5] →
        Cb'.Buffer.getD ((Cb'.ReadStart + 2 + j) % Cb'.AllocLength) 0 =
          List.getD [5] j 0 :=
  writeBuffer_grow_spec ⟨[7, 8], 1, 2, 2, 8⟩ [5]
    ⟨rfl, ⟨1, rfl⟩, ⟨3, rfl⟩, by decide, by decide, by decide⟩
    (by decide) (by decide)

/-- C4: after `VerifiedCircBufDrain n` with `n ≤ PrefixLength`, the new
`ReadStart` is `(ReadStart + n) % AllocLength` (a modular advance, also when
`n = PrefixLength`), the new `PrefixLength` is the old one minus `n`, and
the buffer contents, `AllocLength` and `VirtualLength` are unchanged. -/
theorem drain_modular (Cb : VERIFIED_CIRC_BUFFER) (n : Nat)
    (hn : n ≤ Cb.PrefixLength) :
    (VerifiedCircBufDrain Cb n).ReadStart = (Cb.ReadStart + n) % Cb.AllocLength ∧
    (VerifiedCircBufDrain Cb n).PrefixLength + n = Cb.PrefixLength ∧
    (VerifiedCircBufDrain Cb n).Buffer = Cb.Buffer ∧
    (VerifiedCircBufDrain Cb n).AllocLength = Cb.AllocLength ∧
    (VerifiedCircBufDrain Cb n).VirtualLength = Cb.VirtualLength := by
  refine ⟨rfl, ?_, rfl, rfl, rfl⟩
  show Cb.PrefixLength - n + n = Cb.PrefixLength
  omega

/-- C4 witness: draining the whole prefix (`n = PrefixLength = 2`) of the
ring `ReadStart = 3, AllocLength = 4` advances `ReadStart` to
`(3 + 2) % 4 = 1`, not to zero. -/
theorem drain_modular_witness :
    (VerifiedCircBufDrain ⟨[1, 2, 3, 4], 3, 4, 2, 8⟩ 2).ReadStart = (3 + 2) % 4 ∧
    (VerifiedCircBufDrain ⟨[1, 2, 3, 4], 3, 4, 2, 8⟩ 2).PrefixLength + 2 = 2 ∧
    (VerifiedCircBufDrain ⟨[1, 2, 3, 4], 3, 4, 2, 8⟩ 2).Buffer = [1, 2, 3, 4] ∧
    (VerifiedCircBufDrain ⟨[1, 2, 3, 4], 3, 4, 2, 8⟩ 2).AllocLength = 4 ∧
    (VerifiedCircBufDrain ⟨[1, 2, 3, 4], 3, 4, 2, 8⟩ 2).VirtualLength = 8 :=
  drain_modular ⟨[1, 2, 3, 4], 3, 4, 2, 8⟩ 2 (by decide)

/-- C5 counterexample: the claim quantifies over *every* `WriteBuffer` call
on a state with both lengths powers of two and `AllocLength ≤ VirtualLength`,
but the doubling loop in the code never consults `VirtualLength`; a call
violating the header precondition `PrefixLength + WriteLength ≤
VirtualLength` grows past `VirtualLength`.  Concretely: `AllocLength =
VirtualLength = 1` and a 2-byte write yield `AllocLength = 2 > 1`. -/
theorem writeBuffer_can_exceed_virtual :
    IsPow2 (VERIFIED_CIRC_BUFFER.mk [0] 0 1 0 1).AllocLength ∧
    IsPow2 (VERIFIED_CIRC_BUFFER.mk [0] 0 1 0 1).VirtualLength ∧
    (VERIFIED_CIRC_BUFFER.mk [0] 0 1 0 1).AllocLength ≤
      (VERIFIED_CIRC_BUFFER.mk [0] 0 1 0 1).VirtualLength ∧
    ¬ ((VerifiedCircBufWriteBuffer true (VERIFIED_CIRC_BUFFER.mk [0] 0 1 0 1)
        [1, 2]).2.2.AllocLength ≤
        (VERIFIED_CIRC_BUFFER.mk [0] 0 1 0 1).VirtualLength) := by
  refine ⟨⟨0, rfl⟩, ⟨0, rfl⟩, by decide, ?_⟩
  have hgl : growLoop 1 2 = 2 := by
    rw [growLoop, dif_pos (by omega), growLoop, dif_neg (by omega)]
  have hres0 : VerifiedCircBufResize true (VERIFIED_CIRC_BUFFER.mk [0] 0 1 0 1)
      (growLoop 1 2) = (true, VERIFIED_CIRC_BUFFER.mk [0, 0] 0 2 0 1) := by
    rw [hgl]
    decide
  have heval := writeBuffer_grow (VERIFIED_CIRC_BUFFER.mk [0] 0 1 0 1)
    (VERIFIED_CIRC_BUFFER.mk [0, 0] 0 2 0 1) [1, 2] (by decide) hres0
  rw [heval]
  decide

/-- C5 (amended): for every ring state with `AllocLength` and
`VirtualLength` powers of two and `AllocLength ≤ VirtualLength`, and every
`WriteBuffer` call *satisfying the documented precondition
`PrefixLength + WriteLength ≤ VirtualLength`*, the resulting `AllocLength`
is a power of two, never shrinks, never exceeds `VirtualLength`, and growth
happens only through the doubling loop (the result is either the old
allocation or the doubled-until-fit value). -/
theorem writeBuffer_growth_bounded (Cb : VERIFIED_CIRC_BUFFER) (Src : List Nat)
    (allocOk : Bool) (hpal : IsPow2 Cb.AllocLength)
    (hpvl : IsPow2 Cb.VirtualLength) (hav : Cb.AllocLength ≤ Cb.VirtualLength)
    (hvl : Cb.PrefixLength + Src.length ≤ Cb.VirtualLength) :
    IsPow2 (VerifiedCircBufWriteBuffer allocOk Cb Src).2.2.AllocLength ∧
    Cb.AllocLength ≤ (VerifiedCircBufWriteBuffer allocOk Cb Src).2.2.AllocLength ∧
    (VerifiedCircBufWriteBuffer allocOk Cb Src).2.2.AllocLength ≤
      Cb.VirtualLength ∧
    ((VerifiedCircBufWriteBuffer allocOk Cb Src).2.2.AllocLength =
        Cb.AllocLength ∨
      (Cb.AllocLength < Cb.PrefixLength + Src.length ∧
        (VerifiedCircBufWriteBuffer allocOk Cb Src).2.2.AllocLength =
          growLoop Cb.AllocLength (Cb.PrefixLength + Src.length))) := by
  by_cases hg : Cb.AllocLength < Cb.PrefixLength + Src.length
  · cases allocOk with
    | false =>
      rw [writeBuffer_allocFail Cb Src hg]
      exact ⟨hpal, Nat.le_refl _, hav, Or.inl rfl⟩
    | true =>
      have hres : VerifiedCircBufResize true Cb
          (growLoop Cb.AllocLength (Cb.PrefixLength + Src.length)) =
          (true, (VerifiedCircBufResize true Cb
            (growLoop Cb.AllocLength (Cb.PrefixLength + Src.length))).2) := rfl
      have hAL : (VerifiedCircBufWriteBuffer true Cb Src).2.2.AllocLength =
          growLoop Cb.AllocLength (Cb.PrefixLength + Src.length) := by
        rw [writeBuffer_grow Cb _ Src hg hres]
        show (VerifiedCircBufWritePlace ((VerifiedCircBufResize true Cb
          (growLoop Cb.AllocLength (Cb.PrefixLength + Src.length))).2) Src
          Cb.PrefixLength).AllocLength =
          growLoop Cb.AllocLength (Cb.PrefixLength + Src.length)
        rw [writePlace_AllocLength, resize_true_AllocLength]
      refine ⟨?_, ?_, ?_, Or.inr ⟨hg, hAL⟩⟩ <;> rw [hAL]
      · exact growLoop_pow2 _ hpal
      · exact growLoop_le_self _ _
      · exact growLoop_le_bound hpal hpvl hav hvl
  · have hAL : (VerifiedCircBufWriteBuffer allocOk Cb Src).2.2.AllocLength =
        Cb.AllocLength := by
      rw [writeBuffer_noGrow Cb Src allocOk hg]
      show (VerifiedCircBufWritePlace Cb Src Cb.PrefixLength).AllocLength =
        Cb.AllocLength
      rw [writePlace_AllocLength]
    refine ⟨?_, ?_, ?_, Or.inl hAL⟩
    · rw [hAL]; exact hpal
    · rw [hAL]
    · rw [hAL]; exact hav

/-- C5 (amended) witness: the fresh ring of allocation 2 and virtual length
4 written with three bytes. -/
theorem writeBuffer_growth_bounded_witness :
    IsPow2 (VerifiedCircBufWriteBuffer true (VerifiedCircBufInitState 2 4)
      [1, 2, 3]).2.2.AllocLength ∧
    (VerifiedCircBufInitState 2 4).AllocLength ≤
      (VerifiedCircBufWriteBuffer true (VerifiedCircBufInitState 2 4)
        [1, 2, 3]).2.2.AllocLength ∧
    (VerifiedCircBufWriteBuffer true (VerifiedCircBufInitState 2 4)
      [1, 2, 3]).2.2.AllocLength ≤ (VerifiedCircBufInitState 2 4).VirtualLength ∧
    ((VerifiedCircBufWriteBuffer true (VerifiedCircBufInitState 2 4)
        [1, 2, 3]).2.2.AllocLength = (VerifiedCircBufInitState 2 4).AllocLength ∨
      ((VerifiedCircBufInitState 2 4).AllocLength <
          (VerifiedCircBufInitState 2 4).PrefixLength + List.length [1, 2, 3] ∧
        (VerifiedCircBufWriteBuffer true (VerifiedCircBufInitState 2 4)
            [1, 2, 3]).2.2.AllocLength =
          growLoop (VerifiedCircBufInitState 2 4).AllocLength
            ((VerifiedCircBufInitState 2 4).PrefixLength +
              List.length [1, 2, 3]))) :=
  writeBuffer_growth_bounded (VerifiedCircBufInitState 2 4) [1, 2, 3] true
    ⟨1, rfl⟩ ⟨2, rfl⟩ (by decide) (by decide)

/-- C6: under the documented preconditions (powers of two,
`AllocLength ≤ VirtualLength`, `PrefixLength + WriteLength ≤
VirtualLength`) and when the doubling loop actually runs
(`AllocLength < PrefixLength + WriteLength`), the loop — a total function,
so it terminates — reaches exactly the smallest power of two at least
`PrefixLength + WriteLength`, which is at most `VirtualLength`, and this is
the allocation length `VerifiedCircBufWriteBuffer` ends with. -/
theorem growLoop_terminates_least (Cb : VERIFIED_CIRC_BUFFER) (Src : List Nat)
    (hpal : IsPow2 Cb.AllocLength) (hpvl : IsPow2 Cb.VirtualLength)
    (hav : Cb.AllocLength ≤ Cb.VirtualLength)
    (hvl : Cb.PrefixLength + Src.length ≤ Cb.VirtualLength)
    (hg : Cb.AllocLength < Cb.PrefixLength + Src.length) :
    IsPow2 (growLoop Cb.AllocLength (Cb.PrefixLength + Src.length)) ∧
    Cb.PrefixLength + Src.length ≤
      growLoop Cb.AllocLength (Cb.PrefixLength + Src.length) ∧
    growLoop Cb.AllocLength (Cb.PrefixLength + Src.length) ≤
      Cb.VirtualLength ∧
    (∀ m, IsPow2 m → Cb.PrefixLength + Src.length ≤ m →
      growLoop Cb.AllocLength (Cb.PrefixLength + Src.length) ≤ m) ∧
    (VerifiedCircBufWriteBuffer true Cb Src).2.2.AllocLength =
      growLoop Cb.AllocLength (Cb.PrefixLength + Src.length) := by
  have h0al := hpal.pos
  refine ⟨growLoop_pow2 _ hpal, growLoop_ge _ h0al,
    growLoop_le_bound hpal hpvl hav hvl, ?_, ?_⟩
  · intro m hm hmn
    exact growLoop_le_bound hpal hm (by omega) hmn
  · have hres : VerifiedCircBufResize true Cb
        (growLoop Cb.AllocLength (Cb.PrefixLength + Src.length)) =
        (true, (VerifiedCircBufResize true Cb
          (growLoop Cb.AllocLength (Cb.PrefixLength + Src.length))).2) := rfl
    rw [writeBuffer_grow Cb _ Src hg hres]
    show (VerifiedCircBufWritePlace ((VerifiedCircBufResize true Cb
      (growLoop Cb.AllocLength (Cb.PrefixLength + Src.length))).2) Src
      Cb.PrefixLength).AllocLength =
      growLoop Cb.AllocLength (Cb.PrefixLength + Src.length)
    rw [writePlace_AllocLength, resize_true_AllocLength]

/-- C6 witness: allocation 2, virtual length 8, three-byte write. -/
theorem growLoop_terminates_least_witness :
    IsPow2 (growLoop (VerifiedCircBufInitState 2 8).AllocLength
      ((VerifiedCircBufInitState 2 8).PrefixLength + List.length [1, 2, 3])) ∧
    (VerifiedCircBufInitState 2 8).PrefixLength + List.length [1, 2, 3] ≤
      growLoop (VerifiedCircBufInitState 2 8).AllocLength
        ((VerifiedCircBufInitState 2 8).PrefixLength + List.length [1, 2, 3]) ∧
    growLoop (VerifiedCircBufInitState 2 8).AllocLength
        ((VerifiedCircBufInitState 2 8).PrefixLength + List.length [1, 2, 3]) ≤
      (VerifiedCircBufInitState 2 8).VirtualLength ∧
    (∀ m, IsPow2 m →
      (VerifiedCircBufInitState 2 8).PrefixLength + List.length [1, 2, 3] ≤ m →
      growLoop (VerifiedCircBufInitState 2 8).AllocLength
        ((VerifiedCircBufInitState 2 8).PrefixLength +
          List.length [1, 2, 3]) ≤ m) ∧
    (VerifiedCircBufWriteBuffer true (VerifiedCircBufInitState 2 8)
        [1, 2, 3]).2.2.AllocLength =
      growLoop (VerifiedCircBufInitState 2 8).AllocLength
        ((VerifiedCircBufInitState 2 8).PrefixLength + List.length [1, 2, 3]) :=
  growLoop_terminates_least (VerifiedCircBufInitState 2 8) [1, 2, 3]
    ⟨1, rfl⟩ ⟨3, rfl⟩ (by decide) (by decide) (by decide)

/-- C7: if the allocator returns null during a grow, the operation reports
failure (`Resize` returns `false`; `WriteBuffer` returns `false` with
`*AllocationFailed` set) and the whole ring state is unchanged — the old
buffer is retained. -/
theorem alloc_failure_preserves (Cb : VERIFIED_CIRC_BUFFER) (NewAl : Nat)
    (Src : List Nat) (hg : Cb.AllocLength < Cb.PrefixLength + Src.length) :
    VerifiedCircBufResize false Cb NewAl = (false, Cb) ∧
    VerifiedCircBufWriteBuffer false Cb Src = (false, true, Cb) :=
  ⟨rfl, writeBuffer_allocFail Cb Src hg⟩

/-- C7 witness: allocator failure on a grow from 2 to 4 bytes. -/
theorem alloc_failure_preserves_witness :
    VerifiedCircBufResize false ⟨[0, 0], 0, 2, 1, 8⟩ 4 =
      (false, ⟨[0, 0], 0, 2, 1, 8⟩) ∧
    VerifiedCircBufWriteBuffer false ⟨[0, 0], 0, 2, 1, 8⟩ [1, 2] =
      (false, true, ⟨[0, 0], 0, 2, 1, 8⟩) :=
  alloc_failure_preserves ⟨[0, 0], 0, 2, 1, 8⟩ 4 [1, 2] (by decide)

/-- C9: `VerifiedCircBufUninitialize` is idempotent — a second call sees a
null buffer pointer and changes nothing — and after any call the buffer
pointer is null. -/
theorem uninit_idempotent (Cb : VERIFIED_CIRC_BUFFER_HANDLE) :
    VerifiedCircBufUninit (VerifiedCircBufUninit Cb) = VerifiedCircBufUninit Cb ∧
    (VerifiedCircBufUninit Cb).Buffer = none := by
  constructor
  · cases hB : Cb.Buffer with
    | some l => simp [VerifiedCircBufUninit, hB]
    | none => simp [VerifiedCircBufUninit, hB]
  · cases hB : Cb.Buffer with
    | some l => simp [VerifiedCircBufUninit, hB]
    | none => simp [VerifiedCircBufUninit, hB]

/-- C10: a zero-length write leaves every field of the ring unchanged, sets
`*AllocationFailed` to false, and yet returns false — a no-op reported as
not accepted.  (`PrefixLength ≤ AllocLength` is the data-model bound; a
state violating it would spuriously enter the resize branch.) -/
theorem writeBuffer_zero_len (Cb : VERIFIED_CIRC_BUFFER) (allocOk : Bool)
    (hpl : Cb.PrefixLength ≤ Cb.AllocLength) :
    VerifiedCircBufWriteBuffer allocOk Cb [] = (false, false, Cb) := by
  have hplace : VerifiedCircBufWritePlace Cb [] Cb.PrefixLength = Cb := by
    simp only [VerifiedCircBufWritePlace, List.length_nil, Nat.add_zero]
    rw [if_pos (Nat.zero_le _)]
    rfl
  rw [writeBuffer_noGrow Cb [] allocOk
    (by simp only [List.length_nil, Nat.add_zero]; omega), hplace]
  rfl

/-- C10 witness: a zero-length write on a concrete ring with a failing
allocator still succeeds as a no-op and returns false. -/
theorem writeBuffer_zero_len_witness :
    VerifiedCircBufWriteBuffer false ⟨[9, 9], 1, 2, 1, 4⟩ [] =
      (false, false, ⟨[9, 9], 1, 2, 1, 4⟩) :=
  writeBuffer_zero_len ⟨[9, 9], 1, 2, 1, 4⟩ false (by decide)
